import Mathlib

/-!
# Shallow embedding of `timspy/timspy.py`

This file embeds, in Lean, the parts of the `timspy` repository that the
verified properties talk about: the `AdvancedTims` constructor checks and
coordinate translations (`frame2rt`, `rt2frame`), the scan-selector
normalisation (`fix_scans`), region extraction (`__getitem__` / `_iter`),
the duplicated `count_all_peaks` definitions, and the `TimsDIA` constructor
(window table assembly, boundary grid, stripe columns, scan-bound
overwrite) together with the `mzRange2windows` method.

Python integers are modelled as `Int` (or `Nat` where the source guarantees
non-negativity), floating point columns as `ℚ` (the code only compares and
indexes them; `math.inf` is modelled as `⊤` in `WithTop ℚ`), pandas tables
as lists of rows in frame order, and raising as `Except`/`Option` results.
-/

namespace Timspy

/-- NumPy `np.searchsorted(a, v)` with the default `side='left'`, an external
library primitive: for an array `a` sorted in ascending order it returns the
left insertion index of `v`, i.e. the length of the maximal ascending run of
leading elements that are `< v`.  (On unsorted input NumPy's binary search is
unspecified garbage; every call site in the repository passes a sorted
column.) -/
def searchsorted {α : Type} [LinearOrder α] (a : List α) (v : α) : Nat :=
  (a.takeWhile (fun x => decide (x < v))).length

/-- Pandas `Series.unique()`: the distinct values of a column in order of
first appearance (used at line 36, `self.frames.NumScans.unique()`). -/
def uniqueVals (l : List Nat) : List Nat :=
  l.foldl (fun acc x => if x ∈ acc then acc else acc ++ [x]) []

/-- Lines 35-39 of `AdvancedTims.__init__`: compute `NumScans.unique()`,
raise `RuntimeError` unless it has exactly one element, otherwise set
`max_scan` to that sole value.  The input is the `NumScans` column, one
entry per frame. -/
def initScanBounds (numScans : List Nat) : Except String Nat :=
  let u := uniqueVals numScans
  if u.length = 1 then
    .ok (u.getD 0 0)
  else
    .error "Number of TIMS pushes is not constant. This is not the class you want to instantiate on this data."

/-- Pandas `Series.max()` on a non-empty numeric column (line 132,
`self.frames.rt.max()`); the empty-column NaN case never arises because a
`.tdf` frames table is non-empty. -/
def seriesMax (l : List ℚ) : ℚ :=
  match l with
  | [] => 0
  | x :: xs => xs.foldl max x

/-- NumPy one-dimensional integer indexing `a[i]`: non-negative indices are
positional, negative indices wrap from the end, anything else raises
`IndexError` (modelled as `none`). -/
def npIndex (a : List ℚ) (i : Int) : Option ℚ :=
  if 0 ≤ i ∧ i < a.length then some (a.getD i.toNat 0)
  else if -(a.length : Int) ≤ i ∧ i < 0 then some (a.getD (a.length + i).toNat 0)
  else none

/-- Lines 115-122, `AdvancedTims.frame2rt` on a single frame number:
`self.frames.rt.values[np.array(frames) + 1]`.  `rtCol` is the stored
retention-time column in frame order (the positional `.values` array). -/
def frame2rt (rtCol : List ℚ) (f : Int) : Option ℚ :=
  npIndex rtCol (f + 1)

/-- Lines 125-133, `AdvancedTims.rt2frame` on a single retention time:
assert `0 <= rt <= frames.rt.max()` (a failed assertion, modelled as
`none`, aborts the call), then return `np.searchsorted(frames.rt, rt) + 1`. -/
def rt2frame (rtCol : List ℚ) (q : ℚ) : Option Nat :=
  if 0 ≤ q ∧ q ≤ seriesMax rtCol then some (searchsorted rtCol q + 1) else none

/-- The scan selector argument of `fix_scans` (lines 294-312): a Python
slice (`step` is never read by `fix_scans`), a single `int`, or an explicit
collection that `np.r_` turns into an array. -/
inductive ScanSel : Type
  | slice (start stop : Option Int)
  | int (s : Int)
  | coll (l : List Int)

/-- Lines 294-312, `AdvancedTims.fix_scans`: resolve the selector to a raw
pair `(s, S)` — slice endpoints defaulting to `min_scan`/`max_scan`, a
single integer `s` to `(s, s+1)`, a non-empty collection to
`(min, max+1)`, an empty collection raising `IndexError` — then clamp
`s` into `[min_scan, max_scan-1]` and `S` into `[min_scan, max_scan]`. -/
def fix_scans (mn mx : Int) (scans : ScanSel) : Except String (Int × Int) :=
  let clamp : Int × Int → Int × Int :=
    fun p => (min (max p.1 mn) (mx - 1), max (min p.2 mx) mn)
  match scans with
  | .slice st sp => .ok (clamp (st.getD mn, sp.getD mx))
  | .int s => .ok (clamp (s, s + 1))
  | .coll l =>
    match l.min?, l.max? with
    | some s, some S => .ok (clamp (s, S + 1))
    | _, _ => .error "This type of scans are not valid indices."

/-- Python `range(start, stop, step)` for a positive `step` (the code only
builds ranges with the default step 1 or a user-supplied positive step). -/
def intRange (start stop step : Int) : List Int :=
  if 0 < step then
    (List.range ((stop - start + step - 1) / step).toNat).map
      (fun (i : Nat) => start + step * (i : Int))
  else []

/-- The frame selector argument of `_iter` (lines 329-339): a slice
(endpoints defaulting to `min_frame`/`max_frame`, step defaulting to 1) or
an explicit iterable of frame numbers.  (The predicate-string branch
resolves, through the frames table, to such an explicit list.) -/
inductive FrameSel : Type
  | slice (start stop step : Option Int)
  | coll (l : List Int)

/-- Lines 331-339: resolve the frame selector to the list of candidate
frame numbers. -/
def resolveFrames (fmin fmax : Int) : FrameSel → List Int
  | .slice st sp stp => intRange (st.getD fmin) (sp.getD fmax) (stp.getD 1)
  | .coll l => l

/-- A `pandas.DataFrame` as produced by `__getitem__`: a column header and
a list of `(frame, scan, mz_idx, i)` rows. -/
structure Table where
  columns : List String
  rows : List (Int × Int × Int × Int)
  deriving DecidableEq

/-- The four column labels set at lines 349 and 364. -/
def cols4 : List String := ["frame", "scan", "mz_idx", "i"]

/-- Lines 315-364, `_iter` + `__getitem__` for an `[frames, scans]`
subscript: fix the scan bounds (an invalid scan selector raises out of
`fix_scans` before any frame is visited), resolve the frames, keep only
frames inside `border_frames = (min_frame, max_frame)`, fetch each frame's
raw array, keep the non-empty ones as data frames, and either concatenate
them or return an empty four-column data frame.  `frame_array` is the raw
storage backend. -/
def getitem (fmin fmax mn mx : Int)
    (frame_array : Int → Int → Int → List (Int × Int × Int × Int))
    (frames : FrameSel) (scans : ScanSel) : Except String Table :=
  match fix_scans mn mx scans with
  | .error e => .error e
  | .ok (s, S) =>
    let fl := resolveFrames fmin fmax frames
    let dfs := ((fl.filter (fun f => decide (fmin ≤ f ∧ f ≤ fmax))).map
        (fun f => frame_array f s S)).filter (fun r => !r.isEmpty)
    if dfs.isEmpty then .ok ⟨cols4, []⟩ else .ok ⟨cols4, dfs.flatten⟩

/-- The session state and backend callbacks that the two `count_all_peaks`
definitions read: frame bounds, scan bounds (`border_scans`), the
`count_peaks` backend call and the `peakCnts_massIdxs_intensities` backend
call (whose result the second definition slices with `[s:S]`). -/
structure Session where
  min_frame : Int
  max_frame : Int
  min_scan : Nat
  max_scan : Nat
  count_peaks : Int → Nat → Nat → Int
  peakCnts : Int → Nat → Nat → List Int

/-- The value a `count_all_peaks` call returns: either a single grand-total
integer or a per-frame table (row index = frame numbers). -/
inductive PeaksResult : Type
  | total (n : Int)
  | table (index : List Int) (rows : List (List Int))

/-- Lines 152-161, the first `count_all_peaks` definition:
`int(sum(self.count_peaks(f, s, S) for f in range(f, F+1)))`. -/
def count_all_peaks_v1 (d : Session) : PeaksResult :=
  .total (((intRange d.min_frame (d.max_frame + 1) 1).map
    (fun f => d.count_peaks f d.min_scan d.max_scan)).sum)

/-- Lines 416-422, the second `count_all_peaks` definition: stack
`peakCnts_massIdxs_intensities(f, s, S)[s:S]` for every frame into a data
frame indexed by `range(min_frame, max_frame+1)`. -/
def count_all_peaks_v2 (d : Session) : PeaksResult :=
  let fl := intRange d.min_frame (d.max_frame + 1) 1
  .table fl (fl.map (fun f =>
    ((d.peakCnts f d.min_scan d.max_scan).drop d.min_scan).take (d.max_scan - d.min_scan)))

/-- Python class-body semantics: the `def` statements of a class body
execute sequentially, each assigning into the class dictionary, so a later
definition of the same name replaces an earlier one; attribute lookup reads
the final dictionary. -/
def resolveAttr {α : Type} (defs : List (String × α)) (name : String) : Option α :=
  defs.foldl (fun acc kv => if kv.1 = name then some kv.2 else acc) none

/-- The two `def count_all_peaks` statements of the `AdvancedTims` class
body (lines 152 and 416), in source order. -/
def advancedTimsMethods : List (String × (Session → PeaksResult)) :=
  [("count_all_peaks", count_all_peaks_v1), ("count_all_peaks", count_all_peaks_v2)]

/-- One row of the `DiaFrameMsMsWindows` table after the renaming at lines
472-476: window group, inclusive scan bounds, and the isolation centre and
width from which `mz_left`/`mz_right` are derived. -/
structure RawWindow where
  group : Nat
  scan_min : Int
  scan_max : Int
  center : ℚ
  width : ℚ
  deriving DecidableEq

/-- One row of the assembled window table `W`. -/
structure Window where
  group : Nat
  scan_min : Int
  scan_max : Int
  mz_left : WithTop ℚ
  mz_right : WithTop ℚ

/-- Lines 472-485: derive `mz_left = IsolationMz - IsolationWidth/2` and
`mz_right = IsolationMz + IsolationWidth/2` per raw window, then prepend
the synthetic MS1 window 0 spanning the full scan range with m/z bounds
`(0, math.inf)` (`math.inf` modelled as `⊤`).  Window ids are the row
positions of the result (line 486, `W['win'] = W['window'] = range(len(W))`). -/
def mkWindows (minScan maxScan : Int) (raws : List RawWindow) : List Window :=
  ⟨0, minScan, maxScan, ((0 : ℚ) : WithTop ℚ), ⊤⟩ ::
    raws.map (fun r => ⟨r.group, r.scan_min, r.scan_max,
      ((r.center - r.width / 2 : ℚ) : WithTop ℚ),
      ((r.center + r.width / 2 : ℚ) : WithTop ℚ)⟩)

/-- Line 491: `self.grid = sorted(list(set(W.mz_left) | set(W.mz_right)))` —
the deduplicated, ascending list of all window boundary values. -/
def mkGrid (ws : List Window) : List (WithTop ℚ) :=
  List.insertionSort (· ≤ ·) ((ws.map (·.mz_left) ++ ws.map (·.mz_right)).dedup)

/-- Line 492: `W['left'] = np.searchsorted(self.grid, W.mz_left)`. -/
def winLeft (grid : List (WithTop ℚ)) (w : Window) : Nat :=
  searchsorted grid w.mz_left

/-- Line 493: `W['right'] = np.searchsorted(self.grid, W.mz_right) + 1`. -/
def winRight (grid : List (WithTop ℚ)) (w : Window) : Nat :=
  searchsorted grid w.mz_right + 1

/-- Line 487: `W.groupby('group').window.count().unique().max()` — the
largest per-group window count. -/
def windowsPerGroup (ws : List Window) : Nat :=
  (((ws.map (·.group)).dedup).map
    (fun g => (ws.filter (fun w => decide (w.group = g))).length)).foldr max 0

/-- Line 488, the first stripe pass:
`np.where(W.window != 0, (W.win - 1).mod(windows_per_group) + 1, 0)`. -/
def stripe1 (ws : List Window) : List Int :=
  let wpg := windowsPerGroup ws
  (List.range ws.length).map
    (fun id => if id ≠ 0 then ((((id - 1) % wpg : Nat) : Int) + 1) else 0)

/-- Line 499's divisor: `W.index.get_level_values('window_gr')[-1]`, the
window-group id of the last row of the assembled table. -/
def lastGroup (ws : List Window) : Nat :=
  ((ws.map (·.group)).getLast?).getD 0

/-- Line 499: `stripes_no = (len(W)-1) // W.index.get_level_values('window_gr')[-1]`
(non-negative Python `//` is truncating/floor division). -/
def stripesNo (ws : List Window) : Nat :=
  (ws.length - 1) / lastGroup ws

/-- Lines 500-502, the second stripe pass:
`w = np.mod(window_ids - 1, stripes_no); w[0] = -1; W['stripe'] = w`
(NumPy `mod` with a positive modulus returns values in `[0, stripes_no)`,
matching `Int.emod`). -/
def stripeFinal (ws : List Window) : List Int :=
  ((List.range ws.length).map
    (fun (id : Nat) => ((id : Int) - 1) % (stripesNo ws : Int))).set 0 (-1)

/-- Lines 486-502 assembled: the window rows get a `stripe` column at line
488 (`stripe1`), which the assignment at line 502 overwrites with
`stripeFinal`; the resulting table pairs each window row with its final
stripe value. -/
def diaWindowsTable (minScan maxScan : Int) (raws : List RawWindow) :
    List (Window × Int) :=
  let ws := mkWindows minScan maxScan raws
  let firstPass := ws.zip (stripe1 ws)
  (firstPass.map Prod.fst).zip (stripeFinal ws)

/-- The scan-bound fields of a session: `min_scan`, `max_scan` and the
`border_scans` pair. -/
structure ScanBounds where
  min_scan : Int
  max_scan : Int
  border_scans : Int × Int
  deriving DecidableEq

/-- Lines 35-40 of the base-class constructor: `min_scan = 0`,
`max_scan = NumScans`, `border_scans = (min_scan, max_scan)`. -/
def baseScanBounds (numScans : Int) : ScanBounds :=
  ⟨0, numScans, (0, numScans)⟩

/-- Lines 477-479 of `TimsDIA.__init__`: overwrite the base-class scan
bounds with `W.scan_min.min()` and `W.scan_max.max()` taken from the raw
DIA window table (the previous bounds are discarded); `none` models the
degenerate NaN case of an empty window table. -/
def diaScanBounds (_prev : ScanBounds) (raws : List RawWindow) : Option ScanBounds :=
  match (raws.map (·.scan_min)).min?, (raws.map (·.scan_max)).max? with
  | some m, some M => some ⟨m, M, (m, M)⟩
  | _, _ => none

/-- Lines 569-579, `TimsDIA.mzRange2windows`: the body is `pass` followed
by a bare `return`, so the method returns `None` for every query and never
consults the windows table. -/
def mzRange2windows (_min_mz _max_mz : ℚ) : Option (List Nat) :=
  none

/-! ## Helper lemmas -/

theorem takeWhile_length_le {α : Type} (p : α → Bool) :
    ∀ l : List α, (l.takeWhile p).length ≤ l.length
  | [] => by simp
  | x :: xs => by
    cases hp : p x <;>
      simp [List.takeWhile_cons, hp, Nat.succ_le_succ (takeWhile_length_le p xs)]

theorem takeWhile_getD_of_lt {α : Type} (p : α → Bool) (d : α) :
    ∀ (l : List α) (i : Nat), i < (l.takeWhile p).length → p (l.getD i d) = true
  | [], i => by simp
  | x :: xs, i => by
    intro h
    cases hp : p x
    · rw [List.takeWhile_cons, hp] at h
      simp at h
    · simp only [List.takeWhile_cons, hp, if_true] at h
      cases i with
      | zero => simpa using hp
      | succ n =>
        simp only [List.length_cons, Nat.succ_lt_succ_iff] at h
        simpa using takeWhile_getD_of_lt p d xs n h

theorem takeWhile_getD_boundary {α : Type} (p : α → Bool) (d : α) :
    ∀ l : List α, (l.takeWhile p).length < l.length →
      p (l.getD (l.takeWhile p).length d) = false
  | [], h => by simp at h
  | x :: xs, h => by
    cases hp : p x
    · rw [List.takeWhile_cons, hp]
      simpa using hp
    · simp only [List.takeWhile_cons, hp, if_true] at h ⊢
      simp only [List.length_cons, Nat.succ_lt_succ_iff] at h
      simpa using takeWhile_getD_boundary p d xs h

theorem takeWhile_length_mono {α : Type} (p q : α → Bool)
    (hpq : ∀ x, p x = true → q x = true) :
    ∀ l : List α, (l.takeWhile p).length ≤ (l.takeWhile q).length
  | [] => by simp
  | x :: xs => by
    cases hp : p x
    · simp [List.takeWhile_cons, hp]
    · have hq := hpq x hp
      simp [List.takeWhile_cons, hp, hq,
        Nat.succ_le_succ (takeWhile_length_mono p q hpq xs)]

theorem searchsorted_le_length {α : Type} [LinearOrder α] (a : List α) (v : α) :
    searchsorted a v ≤ a.length :=
  takeWhile_length_le _ a

theorem searchsorted_mono {α : Type} [LinearOrder α] (a : List α) {v w : α}
    (h : v ≤ w) : searchsorted a v ≤ searchsorted a w :=
  takeWhile_length_mono _ _
    (fun x hx => by
      simp only [decide_eq_true_eq] at hx ⊢
      exact lt_of_lt_of_le hx h) a

theorem pairwise_rel_getD {α : Type} {r : α → α → Prop} {l : List α}
    (h : List.Pairwise r l) (d : α) {i j : Nat} (hij : i < j) (hj : j < l.length) :
    r (l.getD i d) (l.getD j d) := by
  have hi : i < l.length := lt_trans hij hj
  have hr := List.pairwise_iff_get.mp h ⟨i, hi⟩ ⟨j, hj⟩ (Fin.mk_lt_mk.mpr hij)
  rw [List.getD_eq_getElem?_getD, List.getD_eq_getElem?_getD,
    List.getElem?_eq_getElem hi, List.getElem?_eq_getElem hj]
  simpa [List.get_eq_getElem] using hr

theorem mem_uniqueFold (x : Nat) :
    ∀ (l : List Nat) (acc : List Nat),
      x ∈ l.foldl (fun acc y => if y ∈ acc then acc else acc ++ [y]) acc ↔
        x ∈ acc ∨ x ∈ l
  | [], acc => by simp
  | y :: ys, acc => by
    simp only [List.foldl_cons]
    rw [mem_uniqueFold x ys]
    by_cases hy : y ∈ acc
    · simp only [if_pos hy, List.mem_cons]
      constructor
      · tauto
      · rintro (h | rfl | h)
        · exact Or.inl h
        · exact Or.inl hy
        · exact Or.inr h
    · simp only [if_neg hy, List.mem_append, List.mem_singleton, List.mem_cons]
      tauto

theorem uniqueFold_const (v : Nat) :
    ∀ l : List Nat, (∀ y ∈ l, y = v) →
      l.foldl (fun acc y => if y ∈ acc then acc else acc ++ [y]) [v] = [v]
  | [], _ => rfl
  | y :: ys, h => by
    have hy : y = v := h y (List.mem_cons_self y ys)
    simp only [List.foldl_cons, hy, List.mem_singleton, if_pos rfl]
    exact uniqueFold_const v ys (fun z hz => h z (List.mem_cons_of_mem _ hz))

theorem uniqueVals_const (v : Nat) (l : List Nat) (hne : l ≠ [])
    (h : ∀ y ∈ l, y = v) : uniqueVals l = [v] := by
  match l, hne with
  | z :: zs, _ =>
    have hz : z = v := h z (List.mem_cons_self z zs)
    unfold uniqueVals
    simp only [List.foldl_cons, List.not_mem_nil, if_neg (List.not_mem_nil z),
      List.nil_append, hz]
    exact uniqueFold_const v zs (fun y hy => h y (List.mem_cons_of_mem _ hy))

theorem mem_uniqueVals {x : Nat} {l : List Nat} (hx : x ∈ l) :
    x ∈ uniqueVals l := by
  unfold uniqueVals
  exact (mem_uniqueFold x l []).mpr (Or.inr hx)

/-! ## Claim theorems -/

/-- C3: `AdvancedTims.__init__` (lines 36-39) raises exactly when the
per-frame `NumScans` values are not all equal; when they are all equal to
`v`, construction of the scan bounds succeeds with `max_scan = v`. -/
theorem initScanBounds_spec (l : List Nat) (hne : l ≠ []) :
    (∀ v, (∀ x ∈ l, x = v) → initScanBounds l = .ok v) ∧
    (∀ v, initScanBounds l = .ok v → ∀ x ∈ l, x = v) ∧
    ((∃ e, initScanBounds l = .error e) ↔ ¬ ∀ x ∈ l, ∀ y ∈ l, x = y) := by
  have hok : ∀ v, (∀ x ∈ l, x = v) → initScanBounds l = .ok v := by
    intro v hv
    have hu : uniqueVals l = [v] := uniqueVals_const v l hne hv
    unfold initScanBounds
    simp [hu]
  have hinv : ∀ v, initScanBounds l = .ok v → ∀ x ∈ l, x = v := by
    intro v hv x hx
    unfold initScanBounds at hv
    by_cases hlen : (uniqueVals l).length = 1
    · rcases List.length_eq_one.mp hlen with ⟨u, hu⟩
      rw [if_pos hlen] at hv
      have hxu : x = u := by
        have := mem_uniqueVals hx
        rw [hu] at this
        simpa using this
      have hvu : v = u := by
        rw [hu] at hv
        simpa using (Except.ok.inj hv).symm
      rw [hxu, hvu]
    · rw [if_neg hlen] at hv
      exact absurd hv (by simp)
  refine ⟨hok, hinv, ?_, ?_⟩
  · rintro ⟨e, he⟩ hall
    match l, hne with
    | z :: zs, _ =>
      have hz : ∀ x ∈ z :: zs, x = z :=
        fun x hx => hall x hx z (List.mem_cons_self z zs)
      have := hok z hz
      rw [this] at he
      exact absurd he (by simp)
  · intro hnall
    by_cases hlen : (uniqueVals l).length = 1
    · exfalso
      rcases List.length_eq_one.mp hlen with ⟨u, hu⟩
      refine hnall (fun x hx y hy => ?_)
      have hxu : x = u := by
        have := mem_uniqueVals hx
        rw [hu] at this
        simpa using this
      have hyu : y = u := by
        have := mem_uniqueVals hy
        rw [hu] at this
        simpa using this
      rw [hxu, hyu]
    · refine ⟨"Number of TIMS pushes is not constant. This is not the class you want to instantiate on this data.", ?_⟩
      unfold initScanBounds
      rw [if_neg hlen]

/-- Witness for C3: on `NumScans = [7, 7, 7]` construction succeeds with
`max_scan = 7`. -/
theorem initScanBounds_spec_witness : initScanBounds [7, 7, 7] = .ok 7 :=
  (initScanBounds_spec [7, 7, 7] (by decide)).1 7 (by decide)

/-- C4: `rt2frame` (lines 125-133) on an ascending retention-time column
fails (failed assertion) exactly when the query lies outside
`[0, max(rt)]`, and on an in-range query returns the left binary-search
insertion position plus the 1-based offset: the returned `k + 1` is such
that every column entry at a position `< k` is `< q` and every entry at a
position `≥ k` is `≥ q`. -/
theorem rt2frame_spec (rtCol : List ℚ) (hs : List.Pairwise (· ≤ ·) rtCol) :
    (∀ q : ℚ, rt2frame rtCol q = none ↔ (q < 0 ∨ seriesMax rtCol < q)) ∧
    (∀ q : ℚ, 0 ≤ q → q ≤ seriesMax rtCol →
      rt2frame rtCol q = some (searchsorted rtCol q + 1) ∧
      (∀ i, i < searchsorted rtCol q → rtCol.getD i 0 < q) ∧
      (∀ i, searchsorted rtCol q ≤ i → i < rtCol.length → q ≤ rtCol.getD i 0)) := by
  constructor
  · intro q
    unfold rt2frame
    by_cases h : 0 ≤ q ∧ q ≤ seriesMax rtCol
    · rw [if_pos h]
      simp only [reduceCtorEq, false_iff]
      push_neg
      exact ⟨h.1, h.2⟩
    · rw [if_neg h]
      simp only [true_iff]
      push_neg at h
      by_cases h0 : 0 ≤ q
      · exact Or.inr (h h0)
      · exact Or.inl (lt_of_not_le h0)
  · intro q h0 hm
    refine ⟨by unfold rt2frame; rw [if_pos ⟨h0, hm⟩], ?_, ?_⟩
    · intro i hi
      have hi' : i < (rtCol.takeWhile (fun x => decide (x < q))).length := hi
      have := takeWhile_getD_of_lt (fun x => decide (x < q)) 0 rtCol i hi'
      simpa using this
    · intro i hk hlen
      rcases Nat.eq_or_lt_of_le hk with heq | hlt
      · have hkl : searchsorted rtCol q < rtCol.length := heq ▸ hlen
        have hb := takeWhile_getD_boundary (fun x => decide (x < q)) 0 rtCol hkl
        rw [← heq]
        simpa using le_of_not_lt (by simpa using hb)
      · have hkl : searchsorted rtCol q < rtCol.length := lt_trans hlt hlen
        have hb := takeWhile_getD_boundary (fun x => decide (x < q)) 0 rtCol hkl
        have h1 : q ≤ rtCol.getD (searchsorted rtCol q) 0 :=
          le_of_not_lt (by simpa using hb)
        have h2 : rtCol.getD (searchsorted rtCol q) 0 ≤ rtCol.getD i 0 :=
          pairwise_rel_getD hs 0 hlt hlen
        exact le_trans h1 h2

/-- Witness for C4: on the column `[10, 20, 30]` the in-range query `15`
returns frame `1 + 1 = 2`, with the insertion-position properties. -/
theorem rt2frame_spec_witness :
    rt2frame [10, 20, 30] 15 = some (searchsorted [10, 20, 30] 15 + 1) ∧
    (∀ i, i < searchsorted [10, 20, 30] 15 →
      List.getD ([10, 20, 30] : List ℚ) i 0 < 15) ∧
    (∀ i, searchsorted [10, 20, 30] 15 ≤ i → i < List.length [10, 20, 30] →
      (15 : ℚ) ≤ List.getD [10, 20, 30] i 0) :=
  (rt2frame_spec [10, 20, 30] (by decide)).2 15 (by decide) (by decide)

/-- C1 (code bug): `frame2rt` at line 121 shifts the frame number by `+ 1`
before positional indexing into the 1-based frames table, so on the
concrete frames table with retention times `[10, 20, 30, 40]` for frames
1..4, `frame2rt 1` reads the retention time of frame 3, the round trip
`rt2frame (frame2rt 1)` lands at frame `3 ≠ 1`, and `frame2rt` raises
`IndexError` at the top frame 4 — the spec's oracle-path round trip
`rt2frame (frame2rt f) = f` fails. -/
theorem frame2rt_roundtrip_bug :
    frame2rt [10, 20, 30, 40] 1 = some 30 ∧
    rt2frame [10, 20, 30, 40] 30 = some 3 ∧
    frame2rt [10, 20, 30, 40] 4 = none ∧
    (3 : Nat) ≠ 1 := by
  refine ⟨?_, ?_, ?_, by decide⟩ <;> decide

/-- C5: `fix_scans` (lines 294-312) clamps every accepted selector's
resolved pair into `[min_scan, max_scan-1] × [min_scan, max_scan]`; a
single integer `s` resolves exactly like the half-open span `[s, s+1)`, a
non-empty explicit collection exactly like its `[min, max+1)` span, and
the empty explicit collection raises `IndexError`. -/
theorem fix_scans_spec (mn mx : Int) (hlt : mn < mx) :
    (∀ sel : ScanSel, ∀ s S : Int, fix_scans mn mx sel = .ok (s, S) →
      mn ≤ s ∧ s ≤ mx - 1 ∧ mn ≤ S ∧ S ≤ mx) ∧
    (∀ s : Int, fix_scans mn mx (.int s) =
      fix_scans mn mx (.slice (some s) (some (s + 1)))) ∧
    (∀ (l : List Int) (a b : Int), l.min? = some a → l.max? = some b →
      fix_scans mn mx (.coll l) =
        fix_scans mn mx (.slice (some a) (some (b + 1)))) ∧
    fix_scans mn mx (.coll []) =
      .error "This type of scans are not valid indices." := by
  refine ⟨?_, fun s => rfl, ?_, rfl⟩
  · rintro sel s S h
    cases sel with
    | slice st sp =>
      simp only [fix_scans, Except.ok.injEq, Prod.mk.injEq] at h
      obtain ⟨hs, hS⟩ := h
      omega
    | int v =>
      simp only [fix_scans, Except.ok.injEq, Prod.mk.injEq] at h
      obtain ⟨hs, hS⟩ := h
      omega
    | coll l =>
      rcases hmn : l.min? with _ | a <;> rcases hmx2 : l.max? with _ | b <;>
        simp only [fix_scans, hmn, hmx2, Except.ok.injEq, Prod.mk.injEq,
          reduceCtorEq] at h
      obtain ⟨hs, hS⟩ := h
      omega
  · intro l a b hmn hmx2
    simp only [fix_scans, hmn, hmx2, Option.getD_some]

/-- Witness for C5: with `min_scan = 0`, `max_scan = 10`, the single
integer selector `2` resolves to `(2, 3)`, which satisfies the clamp
bounds. -/
theorem fix_scans_spec_witness :
    (0 : Int) ≤ 2 ∧ (2 : Int) ≤ 10 - 1 ∧ (0 : Int) ≤ 3 ∧ (3 : Int) ≤ 10 :=
  (fix_scans_spec 0 10 (by decide)).1 (ScanSel.int 2) 2 3 (by rfl)

/-- C2 counterexample: the claim says `mzRange2windows(a, b)` returns the
set of all windows whose m/z interval intersects `[a, b)`; in the code the
method is an unimplemented stub, so for the query `[150, 160)` it returns
`None` — no window set at all. -/
theorem mzRange2windows_cex :
    ¬ ∃ ws : List Nat, mzRange2windows 150 160 = some ws := by
  simp [mzRange2windows]

/-- C2 amended: `mzRange2windows` (lines 569-579) is an unimplemented stub
that returns `None` for every query — trivially the same result on
repeated calls with the same arguments, but never a set of window ids. -/
theorem mzRange2windows_stub (a b : ℚ) : mzRange2windows a b = none := rfl

/-- C6 amended: for every selection whose scan selector `fix_scans`
accepts (i.e. any selector other than the empty explicit collection), if
no in-range frame yields any data — in particular when the selection
matches no frames at all — `__getitem__` returns the zero-row table with
exactly the four columns `(frame, scan, mz_idx, i)`, never `None` and
never an error. -/
theorem getitem_empty_ok (fmin fmax mn mx : Int)
    (frame_array : Int → Int → Int → List (Int × Int × Int × Int))
    (frames : FrameSel) (scans : ScanSel) (s S : Int)
    (hfs : fix_scans mn mx scans = .ok (s, S))
    (hempty : ∀ f ∈ resolveFrames fmin fmax frames,
      fmin ≤ f → f ≤ fmax → frame_array f s S = []) :
    getitem fmin fmax mn mx frame_array frames scans = .ok ⟨cols4, []⟩ := by
  have hdfs : (((resolveFrames fmin fmax frames).filter
      (fun f => decide (fmin ≤ f ∧ f ≤ fmax))).map
        (fun f => frame_array f s S)).filter (fun r => !r.isEmpty) = [] := by
    rw [List.filter_eq_nil_iff]
    intro r hr
    rcases List.mem_map.mp hr with ⟨f, hf, rfl⟩
    rcases List.mem_filter.mp hf with ⟨hfl, hcond⟩
    have hc : fmin ≤ f ∧ f ≤ fmax := of_decide_eq_true hcond
    rw [hempty f hfl hc.1 hc.2]
    simp
  simp only [getitem, hfs, hdfs, List.isEmpty_nil, if_true]

/-- Witness for C6: a selection of the out-of-range frame 5 (frames run
1..3) with the full default scan slice returns the zero-row four-column
table. -/
theorem getitem_empty_ok_witness :
    getitem 1 3 0 10 (fun _ _ _ => []) (FrameSel.coll [5])
      (ScanSel.slice none none) = .ok ⟨cols4, []⟩ :=
  getitem_empty_ok 1 3 0 10 (fun _ _ _ => []) (FrameSel.coll [5])
    (ScanSel.slice none none) 0 10 (by rfl) (fun f _ _ _ => rfl)

/-- C6 counterexample: the empty explicit scan collection together with an
empty frame collection is a selection for which no frame yields any data,
yet `__getitem__` raises (the `IndexError` escaping `fix_scans` at line
309) rather than returning the zero-row four-column table. -/
theorem getitem_raises_cex :
    ¬ ∃ t : Table, getitem 1 3 0 10 (fun _ _ _ => []) (FrameSel.coll [])
      (ScanSel.coll []) = .ok t := by
  rintro ⟨t, ht⟩
  simp [getitem, fix_scans] at ht

/-- C9: the `AdvancedTims` class body defines `count_all_peaks` twice
(lines 152-161 and 416-422); Python class-dictionary semantics make the
later definition shadow the earlier one, so the accessor bound in the
final class returns, for every session, the table of per-scan peak counts
indexed by `range(min_frame, max_frame+1)` — one row per frame — and never
the single grand-total integer the first, shadowed definition would
compute. -/
theorem count_all_peaks_shadowing :
    ∃ m, resolveAttr advancedTimsMethods "count_all_peaks" = some m ∧
      m = count_all_peaks_v2 ∧
      ∀ d : Session,
        m d = .table (intRange d.min_frame (d.max_frame + 1) 1)
          ((intRange d.min_frame (d.max_frame + 1) 1).map (fun f =>
            ((d.peakCnts f d.min_scan d.max_scan).drop d.min_scan).take
              (d.max_scan - d.min_scan))) ∧
        ∀ n : Int, m d ≠ .total n := by
  refine ⟨count_all_peaks_v2, rfl, rfl, fun d => ⟨rfl, fun n h => ?_⟩⟩
  exact absurd h (by simp [count_all_peaks_v2])

/-- C10: `TimsDIA.__init__` (lines 477-479) overwrites the scan bounds set
by the base class (lines 35-40) with the minimum `scan_min` and maximum
`scan_max` of the raw DIA window table — all three fields `min_scan`,
`max_scan`, `border_scans` become the window-derived pair, independently
of the frame-metadata `NumScans` bound — and the full-span scan default
then resolves against the window-derived bounds: `fix_scans` on the full
default slice returns exactly `(min scan_min, max scan_max)`. -/
theorem dia_scan_bounds_spec (raws : List RawWindow) (hne : raws ≠ []) :
    ∃ m M : Int,
      (raws.map (·.scan_min)).min? = some m ∧
      (raws.map (·.scan_max)).max? = some M ∧
      (∀ prev : ScanBounds, diaScanBounds prev raws = some ⟨m, M, (m, M)⟩) ∧
      (∀ n n' : Int, diaScanBounds (baseScanBounds n) raws =
        diaScanBounds (baseScanBounds n') raws) ∧
      (m < M → fix_scans m M (.slice none none) = .ok (m, M)) := by
  match raws, hne with
  | r :: rs, _ =>
    refine ⟨_, _, rfl, rfl, fun prev => rfl, fun n n' => rfl, fun hmM => ?_⟩
    simp only [fix_scans, Option.getD_none, max_self, min_self]
    rw [min_eq_left (by exact Int.le_sub_one_of_lt hmM),
      max_eq_left (by exact le_of_lt hmM)]

/-- Witness for C10 on a one-window table with scan bounds `[34, 370]`. -/
theorem dia_scan_bounds_spec_witness :
    ∃ m M : Int,
      (([⟨1, 34, 370, 300, 50⟩] : List RawWindow).map (·.scan_min)).min? = some m ∧
      (([⟨1, 34, 370, 300, 50⟩] : List RawWindow).map (·.scan_max)).max? = some M ∧
      (∀ prev : ScanBounds,
        diaScanBounds prev [⟨1, 34, 370, 300, 50⟩] = some ⟨m, M, (m, M)⟩) ∧
      (∀ n n' : Int, diaScanBounds (baseScanBounds n) [⟨1, 34, 370, 300, 50⟩] =
        diaScanBounds (baseScanBounds n') [⟨1, 34, 370, 300, 50⟩]) ∧
      (m < M → fix_scans m M (.slice none none) = .ok (m, M)) :=
  dia_scan_bounds_spec [⟨1, 34, 370, 300, 50⟩] (by decide)

/-- C7: after `TimsDIA` construction the global m/z boundary grid (line
491: sorted deduplicated union of all `mz_left`/`mz_right`) is strictly
ascending, and every window's grid indices (lines 492-493, binary search
with the `right` index offset by `+1`) satisfy `left < right`, given
non-negative isolation widths. -/
theorem dia_grid_spec (minScan maxScan : Int) (raws : List RawWindow)
    (hw : ∀ r ∈ raws, 0 ≤ r.width) :
    List.Pairwise (· < ·) (mkGrid (mkWindows minScan maxScan raws)) ∧
    ∀ w ∈ mkWindows minScan maxScan raws,
      winLeft (mkGrid (mkWindows minScan maxScan raws)) w <
        winRight (mkGrid (mkWindows minScan maxScan raws)) w := by
  constructor
  · have hsort : List.Pairwise (· ≤ ·) (mkGrid (mkWindows minScan maxScan raws)) :=
      List.sorted_insertionSort (· ≤ ·) _
    have hnd : (mkGrid (mkWindows minScan maxScan raws)).Nodup :=
      (List.perm_insertionSort (· ≤ ·) _).nodup_iff.mpr (List.nodup_dedup _)
    exact (hsort.and hnd).imp (fun h => lt_of_le_of_ne h.1 h.2)
  · intro w hwin
    have hlr : w.mz_left ≤ w.mz_right := by
      simp only [mkWindows, List.mem_cons, List.mem_map] at hwin
      rcases hwin with rfl | ⟨r, hr, rfl⟩
      · exact le_top
      · have h2 : (0 : ℚ) ≤ r.width / 2 := div_nonneg (hw r hr) (by norm_num)
        exact WithTop.coe_le_coe.mpr (by linarith)
    have hmono := searchsorted_mono (mkGrid (mkWindows minScan maxScan raws)) hlr
    unfold winLeft winRight
    omega

/-- Witness for C7 on a two-window table (`[100, 200]` and `[200, 300]`
m/z windows in window group 1). -/
theorem dia_grid_spec_witness :
    (∀ r ∈ ([⟨1, 0, 5, 150, 100⟩, ⟨1, 5, 10, 250, 100⟩] : List RawWindow),
      0 ≤ r.width) ∧
    (List.Pairwise (· < ·)
        (mkGrid (mkWindows 0 10 [⟨1, 0, 5, 150, 100⟩, ⟨1, 5, 10, 250, 100⟩])) ∧
      ∀ w ∈ mkWindows 0 10 [⟨1, 0, 5, 150, 100⟩, ⟨1, 5, 10, 250, 100⟩],
        winLeft (mkGrid (mkWindows 0 10
          [⟨1, 0, 5, 150, 100⟩, ⟨1, 5, 10, 250, 100⟩])) w <
          winRight (mkGrid (mkWindows 0 10
            [⟨1, 0, 5, 150, 100⟩, ⟨1, 5, 10, 250, 100⟩])) w) :=
  ⟨by decide, dia_grid_spec 0 10 [⟨1, 0, 5, 150, 100⟩, ⟨1, 5, 10, 250, 100⟩]
    (by decide)⟩

theorem stripeFinal_getD_pos (ws : List Window) {id : Nat} (h1 : 0 < id)
    (h2 : id < ws.length) :
    (stripeFinal ws).getD id 0 = ((id : Int) - 1) % (stripesNo ws : Int) := by
  unfold stripeFinal
  rw [List.getD_eq_getElem?_getD, List.getElem?_set_ne (Nat.ne_of_lt h1)]
  simp only [List.getElem?_map, List.getElem?_range h2, Option.map_some',
    Option.getD_some]

theorem stripeFinal_getD_zero (ws : List Window) (h : 0 < ws.length) :
    (stripeFinal ws).getD 0 0 = -1 := by
  unfold stripeFinal
  rw [List.getD_eq_getElem?_getD,
    List.getElem?_set_self (by rw [List.length_map, List.length_range]; exact h)]
  rfl

/-- C8: after `TimsDIA` construction the stripe column is the second-pass
assignment of lines 499-502, overriding the first pass of line 488: with
`gmax` the window-group id of the last row — which the hypotheses make the
maximum group id — every window id ≥ 1 gets stripe
`(id - 1) mod stripes_no` with `stripes_no = (total_windows - 1) / gmax`,
and window 0 is forced to the sentinel stripe `-1`. -/
theorem dia_stripe_spec (minScan maxScan : Int) (raws : List RawWindow)
    (gmax : Nat)
    (hlast : lastGroup (mkWindows minScan maxScan raws) = gmax)
    (hmax : ∀ w ∈ mkWindows minScan maxScan raws, w.group ≤ gmax)
    (hg : 0 < gmax) (hlen : gmax ≤ raws.length) :
    ((diaWindowsTable minScan maxScan raws).map Prod.snd).getD 0 0 = -1 ∧
    ∀ id, 0 < id → id < (mkWindows minScan maxScan raws).length →
      ((diaWindowsTable minScan maxScan raws).map Prod.snd).getD id 0 =
        (((id - 1) % (((mkWindows minScan maxScan raws).length - 1) / gmax)
          : Nat) : Int) := by
  have hlen1 : (stripe1 (mkWindows minScan maxScan raws)).length =
      (mkWindows minScan maxScan raws).length := by
    simp only [stripe1]
    rw [List.length_map, List.length_range]
  have hlenF : (stripeFinal (mkWindows minScan maxScan raws)).length =
      (mkWindows minScan maxScan raws).length := by
    simp only [stripeFinal]
    rw [List.length_set, List.length_map, List.length_range]
  have hcol : (diaWindowsTable minScan maxScan raws).map Prod.snd =
      stripeFinal (mkWindows minScan maxScan raws) := by
    simp only [diaWindowsTable]
    rw [List.map_fst_zip _ _ (le_of_eq hlen1.symm)]
    exact List.map_snd_zip _ _ (le_of_eq hlenF)
  have hpos : 0 < (mkWindows minScan maxScan raws).length := by
    simp [mkWindows]
  constructor
  · rw [hcol]
    exact stripeFinal_getD_zero _ hpos
  · intro id h1 h2
    rw [hcol, stripeFinal_getD_pos _ h1 h2, stripesNo, hlast]
    rw [show ((id : Int) - 1) = ((id - 1 : Nat) : Int) by omega, ← Int.natCast_mod]

/-- Witness for C8 on a five-row window table (MS1 window 0 plus two
groups of two windows): `gmax = 2`, `stripes_no = (5-1)/2 = 2`, and window
3 gets stripe `(3-1) mod 2 = 0` while window 0 gets the sentinel `-1`. -/
theorem dia_stripe_spec_witness :
    ((diaWindowsTable 0 10 [⟨1, 0, 5, 150, 100⟩, ⟨1, 5, 10, 250, 100⟩,
      ⟨2, 0, 5, 150, 100⟩, ⟨2, 5, 10, 250, 100⟩]).map Prod.snd).getD 0 0 = -1 ∧
    ∀ id, 0 < id →
      id < (mkWindows 0 10 [⟨1, 0, 5, 150, 100⟩, ⟨1, 5, 10, 250, 100⟩,
        ⟨2, 0, 5, 150, 100⟩, ⟨2, 5, 10, 250, 100⟩]).length →
      ((diaWindowsTable 0 10 [⟨1, 0, 5, 150, 100⟩, ⟨1, 5, 10, 250, 100⟩,
        ⟨2, 0, 5, 150, 100⟩, ⟨2, 5, 10, 250, 100⟩]).map Prod.snd).getD id 0 =
        (((id - 1) % (((mkWindows 0 10 [⟨1, 0, 5, 150, 100⟩,
          ⟨1, 5, 10, 250, 100⟩, ⟨2, 0, 5, 150, 100⟩,
          ⟨2, 5, 10, 250, 100⟩]).length - 1) / 2) : Nat) : Int) :=
  dia_stripe_spec 0 10 [⟨1, 0, 5, 150, 100⟩, ⟨1, 5, 10, 250, 100⟩,
    ⟨2, 0, 5, 150, 100⟩, ⟨2, 5, 10, 250, 100⟩] 2 (by decide) (by decide)
    (by decide) (by decide)

end Timspy
